import Mathlib

/-!
Verification of the `where_is` crate (src/lib.rs): a filtering iterator
over a directory walker, lazily yielding the entries whose base name
equals a fixed target string.

The shallow embedding models a path as its list of components, the lazy
sequence produced by the walker iterator (`walkdir::IntoIter`) as a
finite list of `Except` results (Rust `Result<DirEntry, Error>`), and
the iterator state explicitly, so that one pull is a state-passing
function and full iteration is the standard protocol of pulling until
the first `none`.
-/

namespace WhereIs

/-- A directory entry produced by the walker (`walkdir::DirEntry`).
Only the path matters to the finder; the path is modelled as its list
of components. -/
structure DirEntry where
  path : List String
  deriving DecidableEq

/-- A traversal error produced by the walker (`walkdir::Error`); the
payload is opaque to the finder, which never inspects it. -/
structure WalkError where
  message : String
  deriving DecidableEq

/-- Rust `Path::file_name`: the final component of a path, `none` when
the path has no extractable final component (for example an empty
path). -/
def pathFileName (path : List String) : Option String :=
  path.getLast?

/-- The predicate closure built in `Finder::into_iter` (src/lib.rs
lines 49 to 54): an entry matches when its base name, after lossy
conversion to text (the identity here, since components are modelled
as text already), equals the captured target; an entry with no base
name never matches. -/
def matchPredicate (target : String) (entry : DirEntry) : Bool :=
  match pathFileName entry.path with
  | some name => name == target
  | none => false

/-- `walkdir::WalkDir`: the traversal configuration, anchored at a
root path.  Construction does not touch the filesystem. -/
structure WalkDir where
  root : List String
  deriving DecidableEq

/-- `Finder` (src/lib.rs lines 25 to 28): a walker paired with the
owned target string. -/
structure Finder where
  walker : WalkDir
  target : String
  deriving DecidableEq

/-- `Finder::new` (src/lib.rs lines 33 to 38): anchors a walker at
`root` and stores an owned copy of `target`. -/
def Finder.new (root : List String) (target : String) : Finder :=
  { walker := { root := root }, target := target }

/-- `IteratorFilter` (src/lib.rs lines 61 to 64) as instantiated by
`Finder::into_iter`: the not-yet-consumed remainder of the walker
iterator, together with the target captured by the boxed predicate
closure (the closure body is `matchPredicate`). -/
structure IteratorFilter where
  it : List (Except WalkError DirEntry)
  target : String

/-- `Finder::into_iter` (src/lib.rs lines 45 to 56): consumes the
finder, pairing the walker iterator with the closure that captures the
moved target.  `walkSeq` stands for the sequence of results that
`self.walker.into_iter()` produces for the filesystem rooted at the
stored root. -/
def Finder.intoIter (f : Finder) (walkSeq : List (Except WalkError DirEntry)) :
    IteratorFilter :=
  { it := walkSeq, target := f.target }

/-- The loop body of `IteratorFilter::next` (src/lib.rs lines 73 to
81), generic in the predicate exactly as the source is.  On an empty
sequence, `self.it.next()?` ends the pull; on an error result,
`.ok()?` ends the pull with the walker already advanced past the
error; on a valid entry, the entry is yielded when the predicate holds
and skipped (the loop repeats) when it does not.  Returns the pulled
item together with the remaining walker sequence. -/
def filterNext (pred : DirEntry → Bool) :
    List (Except WalkError DirEntry) →
      Option DirEntry × List (Except WalkError DirEntry)
  | [] => (none, [])
  | Except.error _ :: rest => (none, rest)
  | Except.ok dent :: rest =>
    if pred dent then (some dent, rest) else filterNext pred rest

/-- One pull on the iterator the finder was converted into:
`IteratorFilter::next` with the predicate installed by
`Finder::into_iter`.  The returned state keeps the captured target. -/
def IteratorFilter.next (s : IteratorFilter) : Option DirEntry × IteratorFilter :=
  ((filterNext (matchPredicate s.target) s.it).1,
   { it := (filterNext (matchPredicate s.target) s.it).2, target := s.target })

/-- The output sequence of iterating to exhaustion under the standard
protocol (pull until the first `none`), written as structural
recursion; `collectMatches_step` below proves it agrees with repeated
`filterNext`. -/
def collectMatches (pred : DirEntry → Bool) :
    List (Except WalkError DirEntry) → List DirEntry
  | [] => []
  | Except.error _ :: _ => []
  | Except.ok dent :: rest =>
    if pred dent then dent :: collectMatches pred rest
    else collectMatches pred rest

/-- Iterating the finder iterator to exhaustion. -/
def IteratorFilter.drain (s : IteratorFilter) : List DirEntry :=
  collectMatches (matchPredicate s.target) s.it

/-- All entries yielded by iterating `f.into_iter()` over the given
walker sequence. -/
def Finder.findAll (f : Finder) (walkSeq : List (Except WalkError DirEntry)) :
    List DirEntry :=
  (f.intoIter walkSeq).drain

/-- `collectMatches` is exactly the pull-until-none protocol over
`filterNext`: the output is empty when a pull yields nothing, and
otherwise the pulled entry followed by draining the remaining state. -/
theorem collectMatches_step (pred : DirEntry → Bool)
    (l : List (Except WalkError DirEntry)) :
    collectMatches pred l =
      match filterNext pred l with
      | (none, _) => []
      | (some d, rest) => d :: collectMatches pred rest := by
  induction l with
  | nil => simp [collectMatches, filterNext]
  | cons x rest ih =>
    cases x with
    | error e => simp [collectMatches, filterNext]
    | ok d =>
      by_cases hp : pred d = true
      · simp [collectMatches, filterNext, hp]
      · simp [collectMatches, filterNext, hp, ih]

/-- Every entry in the collected output satisfies the predicate. -/
theorem pred_of_mem_collectMatches (pred : DirEntry → Bool)
    (l : List (Except WalkError DirEntry)) (d : DirEntry)
    (h : d ∈ collectMatches pred l) : pred d = true := by
  induction l with
  | nil => simp [collectMatches] at h
  | cons x rest ih =>
    cases x with
    | error e => simp [collectMatches] at h
    | ok a =>
      by_cases hp : pred a = true
      · simp only [collectMatches, hp, if_true, List.mem_cons] at h
        rcases h with h | h
        · rw [h]; exact hp
        · exact ih h
      · simp only [collectMatches, hp, if_false] at h
        exact ih h

/-- When no valid entry of the walk satisfies the predicate, the
collected output is empty. -/
theorem collectMatches_eq_nil (pred : DirEntry → Bool)
    (l : List (Except WalkError DirEntry))
    (h : ∀ d : DirEntry, Except.ok d ∈ l → pred d = false) :
    collectMatches pred l = [] := by
  induction l with
  | nil => rfl
  | cons x rest ih =>
    cases x with
    | error e => rfl
    | ok a =>
      have ha : pred a = false := h a (by simp)
      simp only [collectMatches, ha, if_neg (by simp [ha] : ¬pred a = true)]
      exact ih fun d hd => h d (by simp [hd])

/-- Over an error-free walk, the collected output is the filter of the
entry sequence by the predicate, in order. -/
theorem collectMatches_map_ok (pred : DirEntry → Bool)
    (entries : List DirEntry) :
    collectMatches pred (entries.map Except.ok) = entries.filter pred := by
  induction entries with
  | nil => rfl
  | cons d rest ih =>
    by_cases hp : pred d = true
    · simp [collectMatches, List.filter_cons, hp, ih]
    · simp [collectMatches, List.filter_cons, hp, ih]

/-- Everything placed after an error in the walker sequence is absent
from the collected output. -/
theorem collectMatches_append_error (pred : DirEntry → Bool)
    (l₁ l₂ : List (Except WalkError DirEntry)) (e : WalkError) :
    collectMatches pred (l₁ ++ Except.error e :: l₂) =
      collectMatches pred l₁ := by
  induction l₁ with
  | nil => rfl
  | cons x rest ih =>
    cases x with
    | error f => rfl
    | ok a =>
      by_cases hp : pred a = true
      · simp [collectMatches, hp, ih]
      · simp [collectMatches, hp, ih]

/-- The predicate holds exactly on the entries whose base name is the
target. -/
theorem matchPredicate_eq_true_iff (t : String) (d : DirEntry) :
    matchPredicate t d = true ↔ pathFileName d.path = some t := by
  cases hn : pathFileName d.path with
  | none => simp [matchPredicate, hn]
  | some name => simp [matchPredicate, hn, beq_iff_eq]

/-- C1: soundness of filtering.  Every entry yielded by iterating the
finder has a base name whose (lossy) text equals the target exactly;
consequently, when no entry of the walk has base name equal to the
target, iteration yields the empty sequence. -/
theorem C1_filter_sound (root : List String) (target : String)
    (walkSeq : List (Except WalkError DirEntry)) :
    (∀ d ∈ (Finder.new root target).findAll walkSeq,
        pathFileName d.path = some target) ∧
    ((∀ d : DirEntry, Except.ok d ∈ walkSeq → matchPredicate target d = false) →
      (Finder.new root target).findAll walkSeq = []) := by
  constructor
  · intro d hd
    have hd' : d ∈ collectMatches (matchPredicate target) walkSeq := hd
    exact (matchPredicate_eq_true_iff target d).mp
      (pred_of_mem_collectMatches _ _ _ hd')
  · intro hno
    show collectMatches (matchPredicate target) walkSeq = []
    exact collectMatches_eq_nil _ _ hno

/-- C1 witness: on a concrete walk, a yielded entry has base name equal
to the target, and a walk with no matching entry yields nothing. -/
theorem C1_filter_sound_witness :
    pathFileName (DirEntry.mk ["r", "t"]).path = some "t" ∧
    (Finder.new ["q"] "zzz").findAll
      [Except.ok { path := ["q"] }, Except.ok { path := ["q", "a"] }] = [] := by
  constructor
  · exact (C1_filter_sound ["r"] "t" [Except.ok { path := ["r", "t"] }]).1
      { path := ["r", "t"] } (by decide)
  · refine (C1_filter_sound ["q"] "zzz" _).2 ?_
    intro d hd
    simp only [List.mem_cons, List.not_mem_nil, or_false, Except.ok.injEq] at hd
    rcases hd with hd | hd
    · rw [hd]; decide
    · rw [hd]; decide

/-- C2 counterexample: the claim that once an error is observed no
entry is produced by any subsequent pull is false on the code.  The
pull that observes the error returns `none`, but the walker state has
advanced past the error, and the next pull produces the matching entry
that remained in the walker sequence. -/
theorem C2_counterexample :
    (IteratorFilter.next
      { it := [Except.error { message := "denied" },
               Except.ok { path := ["r", "t"] }],
        target := "t" }).1 = none ∧
    (IteratorFilter.next
      (IteratorFilter.next
        { it := [Except.error { message := "denied" },
                 Except.ok { path := ["r", "t"] }],
          target := "t" }).2).1 = some { path := ["r", "t"] } := by
  constructor
  · rfl
  · rfl

/-- C2 (amended): the pull that observes a traversal error yields
nothing and consumes the error (the walker state advances past it), so
under the standard iteration protocol, which stops at the first
`none`, every entry placed after the error in the walker sequence is
absent from the output; the iterator is however not fused, and a
further explicit pull past the error-induced `none` can yield later
entries. -/
theorem C2_error_ends_output (t : String) (e : WalkError)
    (rest l₁ l₂ : List (Except WalkError DirEntry)) :
    (IteratorFilter.next { it := Except.error e :: rest, target := t }).1 = none ∧
    (IteratorFilter.next { it := Except.error e :: rest, target := t }).2.it = rest ∧
    IteratorFilter.drain { it := l₁ ++ Except.error e :: l₂, target := t } =
      IteratorFilter.drain { it := l₁, target := t } := by
  refine ⟨rfl, rfl, ?_⟩
  exact collectMatches_append_error (matchPredicate t) l₁ l₂ e

/-- C3: completeness and order.  Over an error-free walker sequence,
iterating the finder yields exactly the subsequence of entries whose
base name equals the target, in visitation order, with no duplicates
and no omissions. -/
theorem C3_complete_in_order (root : List String) (target : String)
    (entries : List DirEntry) :
    (Finder.new root target).findAll (entries.map Except.ok) =
      entries.filter (matchPredicate target) := by
  show collectMatches (matchPredicate target) (entries.map Except.ok) =
    entries.filter (matchPredicate target)
  exact collectMatches_map_ok (matchPredicate target) entries

/-- C4: self-matching root.  When the walker sequence starts with the
root entry (the walker contract) and the base name of the root path
equals the target, the first yielded entry is the root entry itself. -/
theorem C4_root_first (root : List String) (target : String)
    (rootEntry : DirEntry) (rest : List (Except WalkError DirEntry))
    (hpath : rootEntry.path = root)
    (hname : pathFileName root = some target) :
    ((Finder.new root target).findAll
      (Except.ok rootEntry :: rest)).head? = some rootEntry := by
  have hm : matchPredicate target rootEntry = true := by
    rw [matchPredicate_eq_true_iff, hpath]; exact hname
  show ((collectMatches (matchPredicate target)
    (Except.ok rootEntry :: rest)).head? = some rootEntry)
  simp [collectMatches, hm]

/-- C4 witness: a concrete root entry whose base name equals the
target is yielded first. -/
theorem C4_root_first_witness :
    ((Finder.new ["t"] "t").findAll
      [Except.ok { path := ["t"] }]).head? = some { path := ["t"] } :=
  C4_root_first ["t"] "t" { path := ["t"] } [] rfl (by decide)

/-- C5: errors are swallowed, never surfaced.  The pull that meets a
traversal error returns `none`, a plain end-of-sequence of type
`Option DirEntry` with no error variant, indistinguishable from the
`none` returned on natural exhaustion of the walker. -/
theorem C5_errors_swallowed (t : String) (e : WalkError)
    (rest : List (Except WalkError DirEntry)) :
    (IteratorFilter.next { it := Except.error e :: rest, target := t }).1 = none ∧
    (IteratorFilter.next { it := [], target := t }).1 = none := by
  exact ⟨rfl, rfl⟩

/-- C6: an entry whose path has no extractable final component is
treated as non-matching by the predicate for every target, and is
never yielded by any iteration. -/
theorem C6_no_base_name_skipped (target : String) (d : DirEntry)
    (hd : pathFileName d.path = none) :
    matchPredicate target d = false ∧
    ∀ (root : List String) (walkSeq : List (Except WalkError DirEntry)),
      d ∉ (Finder.new root target).findAll walkSeq := by
  have hm : matchPredicate target d = false := by
    simp [matchPredicate, hd]
  refine ⟨hm, ?_⟩
  intro root walkSeq hmem
  have hmem' : d ∈ collectMatches (matchPredicate target) walkSeq := hmem
  have := pred_of_mem_collectMatches _ _ _ hmem'
  rw [hm] at this
  exact Bool.false_ne_true this

/-- C6 witness: the entry with an empty path fails the predicate and
is not yielded from a concrete walk containing it. -/
theorem C6_no_base_name_skipped_witness :
    matchPredicate "x" { path := ([] : List String) } = false ∧
    DirEntry.mk [] ∉ (Finder.new ["r"] "x").findAll [Except.ok { path := [] }] := by
  have h := C6_no_base_name_skipped "x" { path := [] } rfl
  exact ⟨h.1, h.2 ["r"] [Except.ok { path := [] }]⟩

/-- C7: invariants.  The target stored at construction is returned
unchanged by conversion to an iterator, is preserved unchanged by
every pull, and the matching predicate depends only on the final path
component of an entry, never on the rest of its path. -/
theorem C7_target_fixed :
    (∀ (root : List String) (target : String),
      (Finder.new root target).target = target) ∧
    (∀ (f : Finder) (walkSeq : List (Except WalkError DirEntry)),
      (f.intoIter walkSeq).target = f.target) ∧
    (∀ s : IteratorFilter, (IteratorFilter.next s).2.target = s.target) ∧
    (∀ (target : String) (e₁ e₂ : DirEntry),
      pathFileName e₁.path = pathFileName e₂.path →
      matchPredicate target e₁ = matchPredicate target e₂) := by
  refine ⟨fun _ _ => rfl, fun _ _ => rfl, fun _ => rfl, fun t e₁ e₂ h => ?_⟩
  unfold matchPredicate
  rw [h]

/-- C7 witness: target preservation at concrete values, and two
entries with the same base name but different parents get the same
verdict. -/
theorem C7_target_fixed_witness :
    (Finder.new ["r"] "t").target = "t" ∧
    (IteratorFilter.next { it := [], target := "t" }).2.target = "t" ∧
    matchPredicate "n" { path := ["a", "n"] } =
      matchPredicate "n" { path := ["b", "n"] } :=
  ⟨C7_target_fixed.1 ["r"] "t",
   C7_target_fixed.2.2.1 { it := [], target := "t" },
   C7_target_fixed.2.2.2 "n" { path := ["a", "n"] } { path := ["b", "n"] }
     (by decide)⟩

/-- C8: determinism across runs.  Two finder instances constructed
from the identical root and target, iterated over the same unchanged
walker sequence, yield identical output sequences. -/
theorem C8_deterministic (root : List String) (target : String)
    (f₁ f₂ : Finder) (walkSeq : List (Except WalkError DirEntry))
    (h₁ : f₁ = Finder.new root target) (h₂ : f₂ = Finder.new root target) :
    f₁.findAll walkSeq = f₂.findAll walkSeq := by
  rw [h₁, h₂]

/-- C8 witness: two concrete identically-constructed finders agree on
a concrete walk. -/
theorem C8_deterministic_witness :
    (Finder.new ["r"] "t").findAll [Except.ok { path := ["r"] }] =
      (Finder.new ["r"] "t").findAll [Except.ok { path := ["r"] }] :=
  C8_deterministic ["r"] "t" (Finder.new ["r"] "t") (Finder.new ["r"] "t")
    [Except.ok { path := ["r"] }] rfl rfl

/-- C9: empty target.  When every entry of the walk that has a base
name has a nonempty one (true of any real walker, which never
produces an empty final component), a finder whose target is the empty
string yields nothing. -/
theorem C9_empty_target (root : List String)
    (walkSeq : List (Except WalkError DirEntry))
    (hnonempty : ∀ (d : DirEntry) (name : String),
      Except.ok d ∈ walkSeq → pathFileName d.path = some name → name ≠ "") :
    (Finder.new root "").findAll walkSeq = [] := by
  show collectMatches (matchPredicate "") walkSeq = []
  apply collectMatches_eq_nil
  intro d hd
  cases hn : pathFileName d.path with
  | none => simp [matchPredicate, hn]
  | some name =>
    have hne : name ≠ "" := hnonempty d name hd hn
    simp [matchPredicate, hn, hne]

/-- C9 witness: a concrete walk with nonempty base names yields
nothing for the empty target. -/
theorem C9_empty_target_witness :
    (Finder.new ["r"] "").findAll
      [Except.ok { path := ["r"] }, Except.ok { path := ["r", "a"] }] = [] := by
  apply C9_empty_target
  intro d name hd hn
  simp only [List.mem_cons, List.not_mem_nil, or_false, Except.ok.injEq] at hd
  rcases hd with hd | hd
  · subst hd
    have h' : pathFileName (DirEntry.mk ["r"]).path = some "r" := by decide
    rw [h'] at hn
    injection hn with h2
    rw [← h2]
    decide
  · subst hd
    have h' : pathFileName (DirEntry.mk ["r", "a"]).path = some "a" := by decide
    rw [h'] at hn
    injection hn with h2
    rw [← h2]
    decide

/-- C10: per-pull consumption.  A pull on a nonempty walker sequence
consumes at least one and at most all of its elements, one per
iteration of the skip loop, leaving exactly the untouched tail of the
sequence; termination of each pull over a finite sequence is immediate
from this strict consumption (and `filterNext` is total by
construction). -/
theorem C10_pull_consumes (pred : DirEntry → Bool)
    (l : List (Except WalkError DirEntry)) (h : l ≠ []) :
    ∃ k, 1 ≤ k ∧ k ≤ l.length ∧ (filterNext pred l).2 = l.drop k := by
  induction l with
  | nil => exact absurd rfl h
  | cons x rest ih =>
    cases x with
    | error e =>
      exact ⟨1, le_refl 1, by simp, by simp [filterNext]⟩
    | ok d =>
      by_cases hp : pred d = true
      · exact ⟨1, le_refl 1, by simp, by simp [filterNext, hp]⟩
      · by_cases hr : rest = []
        · subst hr
          exact ⟨1, le_refl 1, by simp, by simp [filterNext, hp]⟩
        · obtain ⟨k, hk1, hk2, hk3⟩ := ih hr
          refine ⟨k + 1, by omega, ?_, ?_⟩
          · simp only [List.length_cons]; omega
          · simp [filterNext, hp, hk3]

/-- C10 witness: one pull on a concrete one-element non-matching walk
consumes exactly that element. -/
theorem C10_pull_consumes_witness :
    ∃ k, 1 ≤ k ∧
      k ≤ ([Except.ok { path := ["a"] }] : List (Except WalkError DirEntry)).length ∧
      (filterNext (matchPredicate "t")
        ([Except.ok { path := ["a"] }] : List (Except WalkError DirEntry))).2 =
        ([Except.ok { path := ["a"] }] : List (Except WalkError DirEntry)).drop k :=
  C10_pull_consumes (matchPredicate "t") [Except.ok { path := ["a"] }]
    (by simp)

end WhereIs
